import Mathlib

/-!
Verification of the camera-trap-classifier data inventory and training pipeline.

Shallow embedding of `src/data_processing/data_inventory.py` and the
configuration-merge / finalize / predict logic of
`src/camera_trap_classifier/train.py`.

Python dictionaries are modelled as insertion-ordered association lists
(`List (String × α)`): lookup reads the first binding of a key, assignment
(`d[k] = v`) updates the binding in place when the key is present and appends
a new binding otherwise, exactly as a CPython dict behaves.  Python `None` is
modelled by `Option` at the object level (the `data_inventory = None`
sentinel) and by `PyVal.none` at the value level (argparse argument values).
Raising an exception is modelled by returning `Except.error`.
-/

set_option maxHeartbeats 1000000

namespace CameraTrap

/-- Python exceptions raised by the modelled code. -/
inductive PyError where
  | attributeError (msg : String)
  | typeError (msg : String)
  | valueError (msg : String)
  | keyError (key : String)
  | ioError (msg : String)
deriving DecidableEq, Repr

/-- Python `d[k]` as a total lookup: the value of the first binding of `k`, if any. -/
def getVal {α : Type} : List (String × α) → String → Option α
  | [], _ => none
  | kv :: rest, k => if kv.1 = k then some kv.2 else getVal rest k

/-- Update the (first) binding of `k` when present; leave the list unchanged
otherwise.  Helper for `setItem`. -/
def setVal {α : Type} : List (String × α) → String → α → List (String × α)
  | [], _, _ => []
  | kv :: rest, k, v => if kv.1 = k then (k, v) :: rest else kv :: setVal rest k v

/-- Python dict assignment `d[k] = v`: update in place when the key is
present, append a fresh binding at the end otherwise. -/
def setItem {α : Type} (d : List (String × α)) (k : String) (v : α) :
    List (String × α) :=
  if (getVal d k).isSome then setVal d k v else d ++ [(k, v)]

/-- Python `d.pop(k, None)`: drop the binding of `k` when present (a dict has a
unique binding per key), return the dict unchanged otherwise. -/
def dictPop {α : Type} : List (String × α) → String → List (String × α)
  | [], _ => []
  | kv :: rest, k => if kv.1 = k then rest else kv :: dictPop rest k

/-- Python `{**a, **b}` / `a.update(b)`: write every binding of `b` into a
copy of `a`, values of `b` winning key-by-key. -/
def dictUpdate {α : Type} (a b : List (String × α)) : List (String × α) :=
  b.foldl (fun d kv => setItem d kv.1 kv.2) a

/-- A record of the data inventory: its `labels` dict (label type ↦ list of
label values) plus the remaining record fields (image paths, metadata),
which the modelled operations treat as opaque content. -/
structure Record where
  labels : List (String × List String)
  meta : List (String × String)
deriving DecidableEq, Repr, Inhabited

/-- The created inventory: the dict `id ↦ record`. -/
abbrev Inventory := List (String × Record)

/-! Methods of `DatasetInventory`.

The object state is `Option Inventory`: `none` is the `data_inventory = None`
sentinel set by `__init__`, `some inv` the dict built by
`create_from_source`.  Calling a dict method on `None` raises
`AttributeError`; subscripting `None` raises `TypeError`. -/

/-- Method `get_all_record_ids`: `list(self.data_inventory.keys())`. -/
def get_all_record_ids : Option Inventory → Except PyError (List String)
  | none => .error (.attributeError "NoneType object has no attribute keys")
  | some inv => .ok (inv.map Prod.fst)

/-- Method `get_record_id_data`: `self.data_inventory[record_id]`. -/
def get_record_id_data : Option Inventory → String → Except PyError Record
  | none, _ => .error (.typeError "NoneType object is not subscriptable")
  | some inv, record_id =>
    match getVal inv record_id with
    | some r => .ok r
    | none => .error (.keyError record_id)

/-- Method `get_number_of_records`: `len(self.data_inventory.keys())`. -/
def get_number_of_records : Option Inventory → Except PyError Nat
  | none => .error (.attributeError "NoneType object has no attribute keys")
  | some inv => .ok (inv.map Prod.fst).length

/-- Method `remove_record`: `self.data_inventory.pop(id_to_remove, None)`.  Returns
the new object state. -/
def remove_record : Option Inventory → String → Except PyError (Option Inventory)
  | none, _ => .error (.attributeError "NoneType object has no attribute pop")
  | some inv, id_to_remove => .ok (some (dictPop inv id_to_remove))

/-- Python `int()` applied to a rational: truncation toward zero. -/
def pyInt (q : ℚ) : ℤ := if 0 ≤ q then ⌊q⌋ else ⌈q⌉

/-- The loop `for id in choices: new_data_inv[id] = self.data_inventory[id]`,
starting from the empty dict; `self.data_inventory[id]` raises `KeyError`
when `id` is not a key. -/
def buildNewInv (inv : Inventory) (choices : List String) :
    Except PyError Inventory :=
  choices.foldlM
    (fun acc id =>
      match getVal inv id with
      | some r => .ok (setItem acc id r)
      | none => .error (.keyError id))
    []

/-- Method `randomly_remove_samples_to_percent`, parametrised by the random choice:
`sample ids k` stands for `random.sample(ids, k=k)` (on a duplicate-free
population it returns `k` distinct elements of `ids`; it raises `ValueError`
when `k < 0` or `k > len(ids)`, which the model checks before calling it).
The guard in the source is `if not p_keep <= 1`, and `n_choices` is
`int(n_total * p_keep)`.  Returns the new object state. -/
def randomly_remove_samples_to_percent
    (sample : List String → Nat → List String) :
    Option Inventory → ℚ → Except PyError (Option Inventory)
  | st, p_keep =>
    if ¬ p_keep ≤ 1 then .error (.valueError "p has to be between 0 and 1")
    else
      match st with
      | none => .error (.attributeError "NoneType object has no attribute keys")
      | some inv =>
        let all_ids := inv.map Prod.fst
        let n_choices : ℤ := pyInt ((all_ids.length : ℚ) * p_keep)
        if n_choices < 0 ∨ (all_ids.length : ℤ) < n_choices then
          .error (.valueError "Sample larger than population or is negative")
        else
          (buildNewInv inv (sample all_ids n_choices.toNat)).map some

/-- Result of `export_to_json`: the file written (path and serialized
mapping), and whether the no-inventory warning was emitted. -/
structure ExportResult where
  written : Option (String × Inventory)
  warned : Bool
deriving DecidableEq, Repr

/-- Method `export_to_json`.  `openOk` says whether `open(json_path, 'w')` would
succeed; when the inventory was never created the guard
`if self.data_inventory is not None` prevents any file access and only a
warning is logged. -/
def export_to_json (openOk : Bool) :
    Option Inventory → String → Except PyError ExportResult
  | some inv, json_path =>
    if openOk then .ok ⟨some (json_path, inv), false⟩
    else .error (.ioError "could not open file for writing")
  | none, _ => .ok ⟨none, true⟩

/-! Model of `log_stats`. -/

/-- The statistics accumulated by the first loop of `log_stats`:
`label_stats[label_type][label]` counts occurrences of each label value,
`label_type_stats[label_type]` counts records with more than one label for
the type.  Both dicts are in insertion order. -/
structure Stats where
  label_stats : List (String × List (String × Nat))
  label_type_stats : List (String × Nat)
deriving DecidableEq, Repr

/-- Python `if label not in d: d[label] = 0` followed by `d[label] += 1`: increment
in place when present, append `(label, 1)` otherwise. -/
def bump : List (String × Nat) → String → List (String × Nat)
  | [], label => [(label, 1)]
  | kv :: rest, label =>
    if kv.1 = label then (kv.1, kv.2 + 1) :: rest
    else kv :: bump rest label

/-- The inner `for label in label_list` loop. -/
def addLabels (d : List (String × Nat)) (label_list : List String) :
    List (String × Nat) :=
  label_list.foldl bump d

/-- The body of the loop over `v['labels'].items()`:
initialise the per-type dicts on first encounter, count a multi-label
record, then count every label value of the list. -/
def processLabelType (s : Stats) (label_type : String)
    (label_list : List String) : Stats :=
  let s :=
    if (getVal s.label_stats label_type).isSome then s
    else { label_stats := s.label_stats ++ [(label_type, [])],
           label_type_stats := s.label_type_stats ++ [(label_type, 0)] }
  let s :=
    if 1 < label_list.length then
      { s with label_type_stats := (setItem s.label_type_stats label_type
          (((getVal s.label_type_stats label_type).getD 0) + 1)) }
    else s
  { s with label_stats := (setItem s.label_stats label_type
      (addLabels ((getVal s.label_stats label_type).getD []) label_list)) }

/-- The first loop of `log_stats`: fold `processLabelType` over every
`(label_type, label_list)` pair of every record, records in inventory order
and pairs in the order of each record's labels dict. -/
def computeStats (inv : Inventory) : Stats :=
  inv.foldl
    (fun s kv => kv.2.labels.foldl (fun s p => processLabelType s p.1 p.2) s)
    ⟨[], []⟩

/-- Method `log_stats`: iterating `self.data_inventory.items()` on the
`None` sentinel raises `AttributeError`. -/
def log_stats : Option Inventory → Except PyError Stats
  | none => .error (.attributeError "NoneType object has no attribute items")
  | some inv => .ok (computeStats inv)

/-- Insert `x` into a list assumed sorted by descending `key`, before the
first element whose key is `≤ key x`.  Helper for `sortDescBy`. -/
def insertDescBy {α : Type} (key : α → Nat) (x : α) : List α → List α
  | [] => [x]
  | y :: ys => if key y ≤ key x then x :: y :: ys else y :: insertDescBy key x ys

/-- A stable descending sort by `key`.  Python's
`sorted(range(n), reverse=True, key=lambda k: count_list[k])` is a stable
sort placing larger keys first and keeping equal keys in input order; a
stable descending sort of a list is uniquely determined by that contract,
so this insertion sort computes exactly the order `sorted` produces. -/
def sortDescBy {α : Type} (key : α → Nat) : List α → List α
  | [] => []
  | x :: xs => insertDescBy key x (sortDescBy key xs)

/-- The sequence of `(label, count)` pairs that the second loop of
`log_stats` logs for one label type: the entries of
`label_stats[label_type]` (i.e. `zip(label_list, count_list)` in dict
order), enumerated in the order given by `sort_index`. -/
def loggedStatsOrder (inv : Inventory) (label_type : String) :
    List (String × Nat) :=
  sortDescBy Prod.snd ((getVal (computeStats inv).label_stats label_type).getD [])

/-! Configuration merge of `train.py` (`main`, lines 288–312):

```python
image_processing = config.cfg['image_processing']            # built-in defaults
image_processing_model = config.cfg['models'][model]['image_processing']
for overwrite in to_overwrite:
    if args[overwrite] is not None:
        image_processing[overwrite] = args[overwrite]
image_processing = {**image_processing_model, **image_processing}
if image_processing['image_choice_for_sets'] == 'grayscale_stacking':
    if image_processing['color_augmentation'] is not None:
        image_processing['color_augmentation'] = None
        logger.info(...)
```
-/

/-- A Python value of an argparse argument or a config entry. -/
inductive PyVal where
  | none
  | str (s : String)
  | int (n : ℤ)
  | rat (q : ℚ)
  | bool (b : Bool)
deriving DecidableEq, Repr

/-- A configuration dict. -/
abbrev Config := List (String × PyVal)

/-- The `to_overwrite` list of `main`. -/
def to_overwrite : List String :=
  ["color_augmentation", "preserve_aspect_ratio", "crop_factor", "zoom_factor",
   "rotate_by_angle", "randomly_flip_horizontally", "image_choice_for_sets",
   "output_width", "output_height"]

/-- The user-override loop: for each key of `keysToWrite`, write
`args key` into the dict unless it is `None`.  `args` is total because
argparse defines every declared argument (default `None`). -/
def applyUserOverrides (d : Config) (args : String → PyVal)
    (keysToWrite : List String) : Config :=
  keysToWrite.foldl
    (fun d key => if args key ≠ PyVal.none then setItem d key (args key) else d)
    d

/-- The merged dict `{**image_processing_model, **image_processing}` after
the user-override loop has been applied to the built-in defaults. -/
def mergedImageProcessing (builtin_ip model_ip : Config)
    (args : String → PyVal) : Config :=
  dictUpdate model_ip (applyUserOverrides builtin_ip args to_overwrite)

/-- The effective image-processing configuration plus a flag recording
whether the `Disabling color_augmentation` message was logged.  Reading a
missing key with `d[k]` raises `KeyError`. -/
def effectiveImageProcessing (builtin_ip model_ip : Config)
    (args : String → PyVal) : Except PyError (Config × Bool) :=
  let ip := mergedImageProcessing builtin_ip model_ip args
  match getVal ip "image_choice_for_sets" with
  | Option.none => .error (.keyError "image_choice_for_sets")
  | Option.some choice =>
    if choice = PyVal.str "grayscale_stacking" then
      match getVal ip "color_augmentation" with
      | Option.none => .error (.keyError "color_augmentation")
      | Option.some ca =>
        if ca ≠ PyVal.none then
          .ok (setItem ip "color_augmentation" PyVal.none, true)
        else .ok (ip, false)
    else .ok (ip, false)

/-! Finalize / predict tail of `main` (lines 563–620).

After training, `main` unconditionally copies the best checkpoint to the
model save directory (FINALIZE), then runs the test-set prediction block
only `if len(args['test_tfr_path']) > 0`.  The argument is declared with
`required=False` and no default, so an omitted `-test_tfr_path` is `None`
and `len(None)` raises `TypeError`.  The prediction block itself may fail
(modelled by `predictOutcome`); nothing in it touches the finalized
artifact. -/

/-- Observable outcome of the tail of `main`. -/
structure TrainTail where
  artifactSaved : Bool
  predictEntered : Bool
  predsWritten : Bool
deriving DecidableEq, Repr

/-- Python `len` on an optional string: `len(None)` raises `TypeError`. -/
def pyLen : Option String → Except PyError Nat
  | Option.none => .error (.typeError "object of type NoneType has no len")
  | Option.some s => .ok s.length

/-- The FINALIZE + PREDICT tail: copy the best model, then enter the
prediction block only when `len(test_tfr_path) > 0`.  The pair returned is
the observable state together with the overall outcome of `main` from this
point on (an uncaught exception propagates). -/
def finalize_then_predict (test_tfr_path : Option String)
    (predictOutcome : Except PyError Unit) : TrainTail × Except PyError Unit :=
  let afterCopy : TrainTail :=
    { artifactSaved := true, predictEntered := false, predsWritten := false }
  match pyLen test_tfr_path with
  | .error e => (afterCopy, .error e)
  | .ok n =>
    if 0 < n then
      match predictOutcome with
      | .ok _ =>
        ({ afterCopy with predictEntered := true, predsWritten := true }, .ok ())
      | .error e =>
        ({ afterCopy with predictEntered := true }, .error e)
    else (afterCopy, .ok ())

/-! Decidable equality for `Except`, used to evaluate the model on concrete
inputs. -/

instance {ε α : Type} [DecidableEq ε] [DecidableEq α] :
    DecidableEq (Except ε α) := fun a b =>
  match a, b with
  | .error e, .error f => decidable_of_iff (e = f) (by simp)
  | .error _, .ok _ => Decidable.isFalse (by simp)
  | .ok _, .error _ => Decidable.isFalse (by simp)
  | .ok a, .ok b => decidable_of_iff (a = b) (by simp)

/-- Truth value of an `Except` being an error. -/
def isErr {α : Type} : Except PyError α → Bool
  | .error _ => true
  | .ok _ => false

/-! Lemmas about the dict operations. -/

theorem getVal_append {α : Type} (d₁ d₂ : List (String × α)) (k : String) :
    getVal (d₁ ++ d₂) k =
      match getVal d₁ k with
      | some v => some v
      | none => getVal d₂ k := by
  induction d₁ with
  | nil => simp [getVal]
  | cons kv rest ih =>
    by_cases h : kv.1 = k <;> simp [getVal, h, ih]

theorem getVal_append_ne {α : Type} (d : List (String × α)) {kk k : String}
    (h : kk ≠ k) (v : α) : getVal (d ++ [(kk, v)]) k = getVal d k := by
  rw [getVal_append]
  cases hd : getVal d k <;> simp [getVal, h]

theorem getVal_append_self {α : Type} (d : List (String × α)) {k : String}
    (h : getVal d k = none) (v : α) : getVal (d ++ [(k, v)]) k = some v := by
  rw [getVal_append, h]
  simp [getVal]

theorem map_fst_setVal {α : Type} (d : List (String × α)) (k : String) (v : α) :
    (setVal d k v).map Prod.fst = d.map Prod.fst := by
  induction d with
  | nil => rfl
  | cons kv rest ih =>
    by_cases h : kv.1 = k <;> simp [setVal, h, ih]

theorem getVal_setVal_self {α : Type} (d : List (String × α)) {k : String}
    (h : (getVal d k).isSome) (v : α) : getVal (setVal d k v) k = some v := by
  induction d with
  | nil => simp [getVal] at h
  | cons kv rest ih =>
    by_cases hk : kv.1 = k
    · simp [setVal, getVal, hk]
    · simp [getVal, hk] at h
      simp [setVal, getVal, hk, ih h]

theorem getVal_setVal_ne {α : Type} (d : List (String × α)) {kk k : String}
    (h : kk ≠ k) (v : α) : getVal (setVal d kk v) k = getVal d k := by
  induction d with
  | nil => rfl
  | cons kv rest ih =>
    by_cases hk : kv.1 = kk
    · subst hk
      simp [setVal, getVal, h, ih]
    · by_cases hk2 : kv.1 = k <;> simp [setVal, getVal, hk, hk2, Ne.symm h, ih]

theorem getVal_setItem_self {α : Type} (d : List (String × α)) (k : String)
    (v : α) : getVal (setItem d k v) k = some v := by
  rw [setItem]
  by_cases h : (getVal d k).isSome
  · simp [h, getVal_setVal_self d h v]
  · simp only [h, if_false]
    exact getVal_append_self d (Option.not_isSome_iff_eq_none.mp h) v

theorem getVal_setItem_ne {α : Type} (d : List (String × α)) {kk k : String}
    (h : kk ≠ k) (v : α) : getVal (setItem d kk v) k = getVal d k := by
  rw [setItem]
  by_cases hs : (getVal d kk).isSome
  · simp [hs, getVal_setVal_ne d h v]
  · simp [hs, getVal_append_ne d h v]

theorem isSome_getVal_setItem {α : Type} (d : List (String × α))
    {k : String} (kk : String) (v : α) (h : (getVal d k).isSome) :
    (getVal (setItem d kk v) k).isSome := by
  by_cases hk : kk = k
  · subst hk
    simp [getVal_setItem_self]
  · rw [getVal_setItem_ne d hk]
    exact h

theorem mem_keys_iff_isSome {α : Type} (d : List (String × α)) (k : String) :
    k ∈ d.map Prod.fst ↔ (getVal d k).isSome := by
  induction d with
  | nil => simp [getVal]
  | cons kv rest ih =>
    by_cases h : kv.1 = k
    · simp [getVal, h]
    · simp only [List.map_cons, List.mem_cons, getVal, h, if_false, ih]
      constructor
      · rintro (heq | hm)
        · exact absurd heq.symm h
        · exact hm
      · exact Or.inr

theorem map_fst_setItem {α : Type} (d : List (String × α)) (k : String)
    (v : α) :
    (setItem d k v).map Prod.fst =
      if (getVal d k).isSome then d.map Prod.fst
      else d.map Prod.fst ++ [k] := by
  rw [setItem]
  by_cases h : (getVal d k).isSome <;> simp [h, map_fst_setVal]

theorem nodup_keys_setItem {α : Type} (d : List (String × α)) (k : String)
    (v : α) (h : (d.map Prod.fst).Nodup) :
    ((setItem d k v).map Prod.fst).Nodup := by
  rw [map_fst_setItem]
  by_cases hs : (getVal d k).isSome
  · simpa [hs] using h
  · rw [if_neg hs]
    rw [List.nodup_append]
    refine ⟨h, List.nodup_singleton k, ?_⟩
    intro a ha hb
    simp only [List.mem_singleton] at hb
    subst hb
    rw [mem_keys_iff_isSome] at ha
    exact hs ha

theorem setItem_of_not_mem {α : Type} (d : List (String × α)) {k : String}
    (h : getVal d k = none) (v : α) : setItem d k v = d ++ [(k, v)] := by
  rw [setItem, h]
  rfl

theorem getVal_dictUpdate_of_none {α : Type} (a : List (String × α))
    {b : List (String × α)} {k : String} (h : getVal b k = none) :
    getVal (dictUpdate a b) k = getVal a k := by
  induction b generalizing a with
  | nil => rfl
  | cons kv rest ih =>
    have hk : kv.1 ≠ k := by
      intro he
      simp [getVal, he] at h
    have hr : getVal rest k = none := by
      simpa [getVal, hk] using h
    simp only [dictUpdate, List.foldl_cons]
    exact (ih (setItem a kv.1 kv.2) hr).trans (getVal_setItem_ne a hk kv.2)

theorem getVal_dictUpdate_of_some {α : Type} (a : List (String × α))
    {b : List (String × α)} {k : String} {v : α}
    (hnd : (b.map Prod.fst).Nodup) (h : getVal b k = some v) :
    getVal (dictUpdate a b) k = some v := by
  induction b generalizing a with
  | nil => simp [getVal] at h
  | cons kv rest ih =>
    simp only [List.map_cons, List.nodup_cons] at hnd
    simp only [dictUpdate, List.foldl_cons]
    by_cases hk : kv.1 = k
    · have hv : kv.2 = v := by
        have := h
        simp [getVal, hk] at this
        exact this
      have hrest : getVal rest k = none := by
        rw [← Option.not_isSome_iff_eq_none, ← mem_keys_iff_isSome]
        rw [hk] at hnd
        exact hnd.1
      have := getVal_dictUpdate_of_none (setItem a kv.1 kv.2) hrest
      rw [dictUpdate] at this
      rw [this, hk, getVal_setItem_self, hv]
    · have hr : getVal rest k = some v := by
        simpa [getVal, hk] using h
      exact ih (setItem a kv.1 kv.2) hnd.2 hr

theorem getVal_applyUserOverrides_not_mem {d : Config}
    {args : String → PyVal} {l : List String} {k : String} (h : k ∉ l) :
    getVal (applyUserOverrides d args l) k = getVal d k := by
  induction l generalizing d with
  | nil => rfl
  | cons a rest ih =>
    simp only [List.mem_cons, not_or] at h
    simp only [applyUserOverrides, List.foldl_cons]
    rw [show (rest.foldl
        (fun d key => if args key ≠ PyVal.none then setItem d key (args key) else d)
        (if args a ≠ PyVal.none then setItem d a (args a) else d)) =
        applyUserOverrides
          (if args a ≠ PyVal.none then setItem d a (args a) else d) args rest
      from rfl]
    rw [ih h.2]
    by_cases hn : args a ≠ PyVal.none
    · rw [if_pos hn]
      exact getVal_setItem_ne d (Ne.symm h.1) (args a)
    · rw [if_neg hn]

theorem getVal_applyUserOverrides_of_none {d : Config}
    {args : String → PyVal} {l : List String} {k : String}
    (hargs : args k = PyVal.none) :
    getVal (applyUserOverrides d args l) k = getVal d k := by
  induction l generalizing d with
  | nil => rfl
  | cons a rest ih =>
    simp only [applyUserOverrides, List.foldl_cons]
    rw [show (rest.foldl
        (fun d key => if args key ≠ PyVal.none then setItem d key (args key) else d)
        (if args a ≠ PyVal.none then setItem d a (args a) else d)) =
        applyUserOverrides
          (if args a ≠ PyVal.none then setItem d a (args a) else d) args rest
      from rfl]
    rw [ih]
    by_cases hak : a = k
    · subst hak
      rw [if_neg (by simp [hargs])]
    · by_cases hn : args a ≠ PyVal.none
      · rw [if_pos hn]
        exact getVal_setItem_ne d hak (args a)
      · rw [if_neg hn]

theorem getVal_applyUserOverrides_of_mem {d : Config}
    {args : String → PyVal} {l : List String} {k : String}
    (h : k ∈ l) (hargs : args k ≠ PyVal.none) :
    getVal (applyUserOverrides d args l) k = some (args k) := by
  induction l generalizing d with
  | nil => exact absurd h (List.not_mem_nil k)
  | cons a rest ih =>
    simp only [applyUserOverrides, List.foldl_cons]
    rw [show (rest.foldl
        (fun d key => if args key ≠ PyVal.none then setItem d key (args key) else d)
        (if args a ≠ PyVal.none then setItem d a (args a) else d)) =
        applyUserOverrides
          (if args a ≠ PyVal.none then setItem d a (args a) else d) args rest
      from rfl]
    by_cases hr : k ∈ rest
    · exact ih hr
    · have hak : a = k := by
        rcases List.mem_cons.mp h with he | hm
        · exact he.symm
        · exact absurd hm hr
      subst hak
      rw [getVal_applyUserOverrides_not_mem hr, if_pos hargs]
      exact getVal_setItem_self d a (args a)

theorem isSome_getVal_applyUserOverrides {d : Config}
    {args : String → PyVal} {l : List String} {k : String}
    (h : (getVal d k).isSome) :
    (getVal (applyUserOverrides d args l) k).isSome := by
  induction l generalizing d with
  | nil => exact h
  | cons a rest ih =>
    simp only [applyUserOverrides, List.foldl_cons]
    rw [show (rest.foldl
        (fun d key => if args key ≠ PyVal.none then setItem d key (args key) else d)
        (if args a ≠ PyVal.none then setItem d a (args a) else d)) =
        applyUserOverrides
          (if args a ≠ PyVal.none then setItem d a (args a) else d) args rest
      from rfl]
    apply ih
    by_cases hn : args a ≠ PyVal.none
    · rw [if_pos hn]
      exact isSome_getVal_setItem d a (args a) h
    · rw [if_neg hn]
      exact h

theorem nodup_keys_applyUserOverrides {d : Config}
    {args : String → PyVal} {l : List String}
    (h : (d.map Prod.fst).Nodup) :
    ((applyUserOverrides d args l).map Prod.fst).Nodup := by
  induction l generalizing d with
  | nil => exact h
  | cons a rest ih =>
    simp only [applyUserOverrides, List.foldl_cons]
    rw [show (rest.foldl
        (fun d key => if args key ≠ PyVal.none then setItem d key (args key) else d)
        (if args a ≠ PyVal.none then setItem d a (args a) else d)) =
        applyUserOverrides
          (if args a ≠ PyVal.none then setItem d a (args a) else d) args rest
      from rfl]
    apply ih
    by_cases hn : args a ≠ PyVal.none
    · rw [if_pos hn]
      exact nodup_keys_setItem d a (args a) h
    · rw [if_neg hn]
      exact h

/-! Case analysis of the post-merge grayscale-stacking fixup. -/

theorem effectiveImageProcessing_cases (builtin_ip model_ip : Config)
    (args : String → PyVal) (eff : Config) (logged : Bool)
    (hrun : effectiveImageProcessing builtin_ip model_ip args = .ok (eff, logged)) :
    eff = mergedImageProcessing builtin_ip model_ip args ∨
    eff = setItem (mergedImageProcessing builtin_ip model_ip args)
      "color_augmentation" PyVal.none := by
  simp only [effectiveImageProcessing] at hrun
  split at hrun
  · exact absurd hrun (by simp)
  · split at hrun
    · split at hrun
      · exact absurd hrun (by simp)
      · split at hrun
        · right
          exact (congrArg Prod.fst (Except.ok.inj hrun)).symm
        · left
          exact (congrArg Prod.fst (Except.ok.inj hrun)).symm
    · left
      exact (congrArg Prod.fst (Except.ok.inj hrun)).symm

/-- Amended C1: the merge `{**image_processing_model, **image_processing}`
gives the built-in defaults (with the user overrides already written into
them) priority over the model-specific defaults.  For a key present in both
layers the effective value is the user override when one was supplied, and
otherwise the built-in default value, never the model-specific value. -/
theorem config_merge_effective_priority
    (builtin_ip model_ip : Config) (args : String → PyVal) (k : String)
    (eff : Config) (logged : Bool)
    (hb : k ∈ builtin_ip.map Prod.fst)
    (hm : k ∈ model_ip.map Prod.fst)
    (hnd : (builtin_ip.map Prod.fst).Nodup)
    (hca : k ≠ "color_augmentation")
    (hrun : effectiveImageProcessing builtin_ip model_ip args = .ok (eff, logged)) :
    (k ∈ to_overwrite → args k ≠ PyVal.none → getVal eff k = some (args k)) ∧
    ((k ∉ to_overwrite ∨ args k = PyVal.none) →
      getVal eff k = getVal builtin_ip k) := by
  have hips : (getVal (applyUserOverrides builtin_ip args to_overwrite) k).isSome :=
    isSome_getVal_applyUserOverrides ((mem_keys_iff_isSome _ _).mp hb)
  have hndip : ((applyUserOverrides builtin_ip args to_overwrite).map Prod.fst).Nodup :=
    nodup_keys_applyUserOverrides hnd
  have heq : getVal eff k =
      getVal (mergedImageProcessing builtin_ip model_ip args) k := by
    rcases effectiveImageProcessing_cases builtin_ip model_ip args eff logged hrun
      with he | he
    · rw [he]
    · rw [he]
      exact getVal_setItem_ne _ (Ne.symm hca) _
  have hmerge : ∀ v, getVal (applyUserOverrides builtin_ip args to_overwrite) k = some v →
      getVal (mergedImageProcessing builtin_ip model_ip args) k = some v := by
    intro v hv
    exact getVal_dictUpdate_of_some model_ip hndip hv
  constructor
  · intro hmem hne
    rw [heq]
    exact hmerge _ (getVal_applyUserOverrides_of_mem hmem hne)
  · intro hcase
    obtain ⟨w, hw⟩ := Option.isSome_iff_exists.mp ((mem_keys_iff_isSome _ _).mp hb)
    have hip : getVal (applyUserOverrides builtin_ip args to_overwrite) k = some w := by
      rcases hcase with hnm | hn
      · rw [getVal_applyUserOverrides_not_mem hnm, hw]
      · rw [getVal_applyUserOverrides_of_none hn, hw]
    rw [heq, hmerge _ hip, hw]

/-- The concrete input refuting C1 as stated: key `"k"` is present in both
the built-in defaults and the model-specific defaults and the user supplies
no override, yet the effective value is the built-in one. -/
def cexBuiltin : Config :=
  [("image_choice_for_sets", PyVal.str "random"),
   ("color_augmentation", PyVal.none),
   ("k", PyVal.str "bi")]

/-- Model-specific defaults of the C1 counterexample. -/
def cexModel : Config :=
  [("k", PyVal.str "mo"), ("output_width", PyVal.int 224)]

/-- Argparse values of the C1 counterexample: no user override at all. -/
def cexArgs : String → PyVal := fun _ => PyVal.none

/-- The effective configuration the code computes on the C1 counterexample. -/
def cexEffective : Config :=
  [("k", PyVal.str "bi"), ("output_width", PyVal.int 224),
   ("image_choice_for_sets", PyVal.str "random"),
   ("color_augmentation", PyVal.none)]

/-- C1 counterexample: the key `"k"` is present in both the built-in defaults
(value `"bi"`) and the model-specific defaults (value `"mo"`), the user
supplies no override (`cexArgs` is constantly `PyVal.none`), yet the
effective configuration carries the built-in value, not the model-specific
one, refuting the claimed model-over-builtin priority. -/
theorem config_merge_model_priority_cex :
    getVal cexBuiltin "k" = some (PyVal.str "bi") ∧
    getVal cexModel "k" = some (PyVal.str "mo") ∧
    cexArgs "k" = PyVal.none ∧
    effectiveImageProcessing cexBuiltin cexModel cexArgs =
      .ok (cexEffective, false) ∧
    getVal cexEffective "k" = some (PyVal.str "bi") ∧
    getVal cexEffective "k" ≠ some (PyVal.str "mo") := by
  decide

/-- Built-in defaults of the C1 witness configuration. -/
def wBuiltin : Config :=
  [("image_choice_for_sets", PyVal.str "random"),
   ("color_augmentation", PyVal.none),
   ("output_width", PyVal.int 100)]

/-- Model-specific defaults of the C1 witness configuration. -/
def wModel : Config :=
  [("output_width", PyVal.int 224), ("image_choice_for_sets", PyVal.str "random")]

/-- The effective configuration computed on the C1 witness input. -/
def wEffective : Config :=
  [("output_width", PyVal.int 100),
   ("image_choice_for_sets", PyVal.str "random"),
   ("color_augmentation", PyVal.none)]

theorem config_merge_effective_priority_witness :
    getVal wEffective "output_width" = getVal wBuiltin "output_width" :=
  (config_merge_effective_priority wBuiltin wModel cexArgs "output_width"
    wEffective false (by decide) (by decide) (by decide) (by decide)
    (by decide)).2 (Or.inr rfl)

/-- C8: whenever the merged configuration selects
`image_choice_for_sets = grayscale_stacking`, the effective configuration has
`color_augmentation = None` — no matter which layer supplied a non-null
value — and the disabling is logged whenever a non-null value was
overridden; for any other `image_choice_for_sets` value the configuration
is exactly what the merge produced and nothing is logged. -/
theorem grayscale_stacking_disables_color_augmentation
    (builtin_ip model_ip : Config) (args : String → PyVal)
    (eff : Config) (logged : Bool)
    (hrun : effectiveImageProcessing builtin_ip model_ip args = .ok (eff, logged)) :
    (getVal (mergedImageProcessing builtin_ip model_ip args)
        "image_choice_for_sets" = some (PyVal.str "grayscale_stacking") →
      getVal eff "color_augmentation" = some PyVal.none ∧
      (getVal (mergedImageProcessing builtin_ip model_ip args)
          "color_augmentation" ≠ some PyVal.none → logged = true)) ∧
    (∀ choice, getVal (mergedImageProcessing builtin_ip model_ip args)
        "image_choice_for_sets" = some choice →
      choice ≠ PyVal.str "grayscale_stacking" →
      eff = mergedImageProcessing builtin_ip model_ip args ∧ logged = false) := by
  constructor
  · intro hgs
    simp only [effectiveImageProcessing, hgs] at hrun
    rw [if_pos trivial] at hrun
    cases hca : getVal (mergedImageProcessing builtin_ip model_ip args)
        "color_augmentation" with
    | none =>
      rw [hca] at hrun
      simp at hrun
    | some ca =>
      rw [hca] at hrun
      by_cases hcn : ca = PyVal.none
      · subst hcn
        simp at hrun
        obtain ⟨h1, h2⟩ := hrun
        refine ⟨?_, ?_⟩
        · rw [← h1]
          exact hca
        · intro hne
          exact absurd rfl hne
      · simp [hcn] at hrun
        obtain ⟨h1, h2⟩ := hrun
        refine ⟨?_, ?_⟩
        · rw [← h1]
          exact getVal_setItem_self _ _ _
        · intro _
          exact h2
  · intro choice hc hne
    simp only [effectiveImageProcessing, hc] at hrun
    rw [if_neg hne] at hrun
    have h2 := Except.ok.inj hrun
    exact ⟨(congrArg Prod.fst h2).symm, (congrArg Prod.snd h2).symm⟩

/-- Built-in defaults of the C8 witness: grayscale stacking selected and a
non-null color augmentation. -/
def wgBuiltin : Config :=
  [("image_choice_for_sets", PyVal.str "grayscale_stacking"),
   ("color_augmentation", PyVal.str "full_fast")]

/-- The effective configuration computed on the C8 witness input. -/
def wgEffective : Config :=
  [("image_choice_for_sets", PyVal.str "grayscale_stacking"),
   ("color_augmentation", PyVal.none)]

theorem grayscale_stacking_disables_color_augmentation_witness :
    getVal wgEffective "color_augmentation" = some PyVal.none :=
  ((grayscale_stacking_disables_color_augmentation wgBuiltin [] cexArgs
    wgEffective true (by decide)).1 (by decide)).1

/-- C3 failing input: with `-test_tfr_path` omitted, argparse leaves
`args['test_tfr_path'] = None` (the argument is `required=False` with no
default), and the PREDICT guard `len(args['test_tfr_path']) > 0` raises
`TypeError` — the run does not complete normally, although the finalized
artifact has already been written and the prediction block is never
entered. -/
theorem predict_skip_crashes_on_missing_test_path :
    finalize_then_predict Option.none (.ok ()) =
      ({ artifactSaved := true, predictEntered := false, predsWritten := false },
       .error (.typeError "object of type NoneType has no len")) := rfl

/-- C9: exporting a never-created inventory is a no-op — no error is raised
even when the path would be unwritable, no file is written, and the warning
is emitted — while exporting a created inventory writes the full id-to-record
mapping to the given path. -/
theorem export_to_json_spec (openOk : Bool) (path : String) (inv : Inventory) :
    export_to_json openOk Option.none path =
      .ok { written := Option.none, warned := true } ∧
    export_to_json true (some inv) path =
      .ok { written := some (path, inv), warned := false } :=
  ⟨rfl, rfl⟩

/-- C10: on a never-created inventory (state `None`), every method except
`export_to_json` raises an exception rather than returning an empty result;
`export_to_json` alone handles the state gracefully (warning, no error, no
file written). -/
theorem uncreated_inventory_ops_fail (record_id : String) (p_keep : ℚ)
    (sample : List String → Nat → List String)
    (path : String) (openOk : Bool) :
    isErr (get_all_record_ids Option.none) = true ∧
    isErr (get_record_id_data Option.none record_id) = true ∧
    isErr (get_number_of_records Option.none) = true ∧
    isErr (remove_record Option.none record_id) = true ∧
    isErr (randomly_remove_samples_to_percent sample Option.none p_keep) = true ∧
    isErr (log_stats Option.none) = true ∧
    export_to_json openOk Option.none path =
      .ok { written := Option.none, warned := true } := by
  refine ⟨rfl, rfl, rfl, rfl, ?_, rfl, rfl⟩
  simp only [randomly_remove_samples_to_percent]
  by_cases h : ¬ p_keep ≤ 1
  · rw [if_pos h]
    rfl
  · rw [if_neg h]
    rfl

/-- The concrete four-record inventory exhibiting the missing lower-bound
check of `randomly_remove_samples_to_percent`. -/
def negPInv : Inventory :=
  [("a", ⟨[("species", ["cat"])], []⟩),
   ("b", ⟨[("species", ["dog"])], []⟩),
   ("c", ⟨[("species", ["cat"])], []⟩),
   ("d", ⟨[("species", ["dog"])], []⟩)]

/-- C2 failing input: the guard `if not p_keep <= 1` does not check the
lower bound, so `p_keep = -1/10` on a four-record inventory passes the
guard, `int(4 * -0.1) = 0` (truncation toward zero), `random.sample(ids, 0)`
succeeds, and the call returns normally after replacing the inventory with
the empty dict — instead of raising the range error announced by the
message `p has to be between 0 and 1`. -/
theorem sample_negative_p_accepted :
    randomly_remove_samples_to_percent (fun ids k => ids.take k)
      (some negPInv) (-1/10) = .ok (some []) := by
  have hlen : ((negPInv.map Prod.fst).length : ℚ) = 4 := by
    simp [negPInv]
  have hchoices : pyInt (((negPInv.map Prod.fst).length : ℚ) * (-1/10)) = 0 := by
    rw [hlen, pyInt, if_neg (by norm_num)]
    norm_num
  simp only [randomly_remove_samples_to_percent]
  rw [if_neg (by norm_num), hchoices]
  rw [if_neg (by simp)]
  rfl

/-! Lemmas about `dictPop`, the model of `dict.pop(key, None)`. -/

theorem dictPop_of_not_mem {α : Type} {d : List (String × α)} {k : String}
    (h : getVal d k = none) : dictPop d k = d := by
  induction d with
  | nil => rfl
  | cons kv rest ih =>
    have hk : kv.1 ≠ k := by
      intro he
      simp [getVal, he] at h
    have hr : getVal rest k = none := by
      simpa [getVal, hk] using h
    simp [dictPop, hk, ih hr]

theorem getVal_dictPop_self {α : Type} {d : List (String × α)} {k : String}
    (hnd : (d.map Prod.fst).Nodup) : getVal (dictPop d k) k = none := by
  induction d with
  | nil => rfl
  | cons kv rest ih =>
    simp only [List.map_cons, List.nodup_cons] at hnd
    by_cases hk : kv.1 = k
    · rw [dictPop, if_pos hk, ← Option.not_isSome_iff_eq_none,
        ← mem_keys_iff_isSome]
      rw [hk] at hnd
      exact hnd.1
    · rw [dictPop, if_neg hk, getVal, if_neg hk]
      exact ih hnd.2

theorem getVal_dictPop_ne {α : Type} (d : List (String × α)) {kk k : String}
    (h : kk ≠ k) : getVal (dictPop d kk) k = getVal d k := by
  induction d with
  | nil => rfl
  | cons kv rest ih =>
    by_cases hk : kv.1 = kk
    · rw [dictPop, if_pos hk, getVal, if_neg (hk ▸ h)]
    · by_cases hk2 : kv.1 = k <;>
        simp [dictPop, getVal, hk, hk2, Ne.symm h, ih]

theorem length_dictPop_of_mem {α : Type} {d : List (String × α)} {k : String}
    (h : (getVal d k).isSome) : (dictPop d k).length + 1 = d.length := by
  induction d with
  | nil => simp [getVal] at h
  | cons kv rest ih =>
    by_cases hk : kv.1 = k
    · rw [dictPop, if_pos hk]
      rfl
    · rw [getVal, if_neg hk] at h
      rw [dictPop, if_neg hk, List.length_cons, List.length_cons, ih h]

/-- C7: `remove_record` on a non-member id is a no-op (it raises no error
and leaves the id-to-record mapping exactly unchanged); on a member id of a
duplicate-free inventory it removes exactly that entry: the id is gone, every
other id still maps to its old record, and the record count drops by one. -/
theorem remove_record_spec (inv : Inventory) (id_to_remove : String) :
    (getVal inv id_to_remove = none →
      remove_record (some inv) id_to_remove = .ok (some inv)) ∧
    ((inv.map Prod.fst).Nodup → ∀ r, getVal inv id_to_remove = some r →
      remove_record (some inv) id_to_remove =
        .ok (some (dictPop inv id_to_remove)) ∧
      getVal (dictPop inv id_to_remove) id_to_remove = none ∧
      (∀ k, k ≠ id_to_remove →
        getVal (dictPop inv id_to_remove) k = getVal inv k) ∧
      (dictPop inv id_to_remove).length + 1 = inv.length) := by
  constructor
  · intro h
    rw [remove_record, dictPop_of_not_mem h]
  · intro hnd r hr
    refine ⟨rfl, getVal_dictPop_self hnd, ?_, ?_⟩
    · intro k hk
      exact getVal_dictPop_ne inv (Ne.symm hk)
    · exact length_dictPop_of_mem (by simp [hr])

/-- The two-record inventory used by the C7 witness. -/
def wrInv : Inventory :=
  [("a", ⟨[("species", ["cat"])], []⟩), ("b", ⟨[("species", ["dog"])], []⟩)]

theorem remove_record_spec_witness :
    remove_record (some wrInv) "z" = .ok (some wrInv) ∧
    getVal (dictPop wrInv "a") "a" = none ∧
    getVal (dictPop wrInv "a") "b" = getVal wrInv "b" ∧
    (dictPop wrInv "a").length + 1 = wrInv.length :=
  ⟨(remove_record_spec wrInv "z").1 (by decide),
   ((remove_record_spec wrInv "a").2 (by decide)
      ⟨[("species", ["cat"])], []⟩ (by decide)).2.1,
   ((remove_record_spec wrInv "a").2 (by decide)
      ⟨[("species", ["cat"])], []⟩ (by decide)).2.2.1 "b" (by decide),
   ((remove_record_spec wrInv "a").2 (by decide)
      ⟨[("species", ["cat"])], []⟩ (by decide)).2.2.2⟩

/-! The rebuild loop of `randomly_remove_samples_to_percent`. -/

theorem buildNewInv_aux (inv : Inventory) :
    ∀ (choices : List String) (acc : Inventory),
      choices.Nodup →
      (∀ x ∈ choices, x ∈ inv.map Prod.fst) →
      (∀ x ∈ choices, x ∉ acc.map Prod.fst) →
      (∀ kv ∈ acc, getVal inv kv.1 = some kv.2) →
      ∃ invN,
        choices.foldlM
          (fun acc id =>
            match getVal inv id with
            | some r => Except.ok (setItem acc id r)
            | none => Except.error (PyError.keyError id)) acc = .ok invN ∧
        invN.map Prod.fst = acc.map Prod.fst ++ choices ∧
        (∀ kv ∈ invN, getVal inv kv.1 = some kv.2) := by
  intro choices
  induction choices with
  | nil =>
    intro acc _ _ _ hacc
    exact ⟨acc, rfl, by simp, hacc⟩
  | cons id rest ih =>
    intro acc hnd hmem hdisj hacc
    simp only [List.nodup_cons] at hnd
    obtain ⟨r, hr⟩ := Option.isSome_iff_exists.mp
      ((mem_keys_iff_isSome inv id).mp (hmem id (List.mem_cons_self id rest)))
    have hid_acc : getVal acc id = none := by
      rw [← Option.not_isSome_iff_eq_none, ← mem_keys_iff_isSome]
      exact hdisj id (List.mem_cons_self id rest)
    have hstep : setItem acc id r = acc ++ [(id, r)] :=
      setItem_of_not_mem acc hid_acc r
    have hdisj2 : ∀ x ∈ rest, x ∉ (acc ++ [(id, r)]).map Prod.fst := by
      intro x hx
      rw [List.map_append]
      intro hcon
      rcases List.mem_append.mp hcon with hl | hr2
      · exact hdisj x (List.mem_cons_of_mem id hx) hl
      · simp only [List.map_cons, List.map_nil, List.mem_singleton] at hr2
        exact hnd.1 (hr2 ▸ hx)
    have hacc2 : ∀ kv ∈ acc ++ [(id, r)], getVal inv kv.1 = some kv.2 := by
      intro kv hkv
      rcases List.mem_append.mp hkv with hl | hr2
      · exact hacc kv hl
      · simp only [List.mem_singleton] at hr2
        rw [hr2]
        exact hr
    obtain ⟨invN, hfold, hkeys, hcontent⟩ :=
      ih (acc ++ [(id, r)]) hnd.2
        (fun x hx => hmem x (List.mem_cons_of_mem id hx)) hdisj2 hacc2
    refine ⟨invN, ?_, ?_, hcontent⟩
    · simpa [List.foldlM_cons, hr, hstep] using hfold
    · rw [hkeys, List.map_append]
      simp

/-- C5: for `0 ≤ p ≤ 1` on a created inventory with duplicate-free ids, and
any function with the contract of `random.sample` (it returns `k` distinct
elements of a duplicate-free population whenever `k ≤ len(population)`),
`randomly_remove_samples_to_percent` succeeds and leaves exactly
`⌊n * p⌋` records, whose ids are pairwise distinct members of the pre-sample
id set, each still bound to the record it was bound to before the call. -/
theorem sample_to_fraction_spec
    (sample : List String → Nat → List String)
    (hsample : ∀ ids k, ids.Nodup → k ≤ ids.length →
      (sample ids k).length = k ∧ (sample ids k).Nodup ∧
      ∀ x ∈ sample ids k, x ∈ ids)
    (inv : Inventory) (p_keep : ℚ) (hp0 : 0 ≤ p_keep) (hp1 : p_keep ≤ 1)
    (hnd : (inv.map Prod.fst).Nodup) :
    ∃ inv2 : Inventory,
      randomly_remove_samples_to_percent sample (some inv) p_keep =
        .ok (some inv2) ∧
      inv2.length = (⌊(inv.length : ℚ) * p_keep⌋).toNat ∧
      (inv2.map Prod.fst).Nodup ∧
      (∀ kv ∈ inv2, kv.1 ∈ inv.map Prod.fst) ∧
      (∀ kv ∈ inv2, getVal inv kv.1 = some kv.2) := by
  have hlen : (inv.map Prod.fst).length = inv.length := List.length_map inv Prod.fst
  have hq0 : (0 : ℚ) ≤ (inv.length : ℚ) * p_keep :=
    mul_nonneg (Nat.cast_nonneg inv.length) hp0
  have hfl0 : 0 ≤ ⌊(inv.length : ℚ) * p_keep⌋ := Int.floor_nonneg.mpr hq0
  have hfln : ⌊(inv.length : ℚ) * p_keep⌋ ≤ (inv.length : ℤ) := by
    have hle : (inv.length : ℚ) * p_keep ≤ (inv.length : ℚ) :=
      mul_le_of_le_one_right (Nat.cast_nonneg inv.length) hp1
    have := Int.floor_le_floor hle
    rwa [Int.floor_natCast] at this
  have hpy : pyInt (((inv.map Prod.fst).length : ℚ) * p_keep) =
      ⌊(inv.length : ℚ) * p_keep⌋ := by
    rw [hlen, pyInt, if_pos hq0]
  have hk : (⌊(inv.length : ℚ) * p_keep⌋).toNat ≤ (inv.map Prod.fst).length := by
    rw [hlen]
    exact Int.toNat_le.mpr hfln
  obtain ⟨hclen, hcnd, hcmem⟩ :=
    hsample (inv.map Prod.fst) (⌊(inv.length : ℚ) * p_keep⌋).toNat hnd hk
  obtain ⟨inv2, hfold, hkeys, hcontent⟩ :=
    buildNewInv_aux inv
      (sample (inv.map Prod.fst) (⌊(inv.length : ℚ) * p_keep⌋).toNat) []
      hcnd hcmem (by simp) (by simp)
  simp only [List.map_nil, List.nil_append] at hkeys
  refine ⟨inv2, ?_, ?_, ?_, ?_, hcontent⟩
  · simp only [randomly_remove_samples_to_percent]
    rw [if_neg (not_not_intro hp1), hpy,
      if_neg (by
        push_neg
        exact ⟨hfl0, by rwa [hlen]⟩)]
    rw [buildNewInv, hfold]
    rfl
  · rw [← hkeys] at hclen
    rw [← hclen, List.length_map]
  · rw [hkeys]
    exact hcnd
  · intro kv hkv
    rw [mem_keys_iff_isSome]
    simp [hcontent kv hkv]

/-- The deterministic stand-in for `random.sample` used by the C5 witness:
take the first `k` ids. -/
def takeSample : List String → Nat → List String := fun ids k => ids.take k

theorem takeSample_valid : ∀ (ids : List String) (k : Nat), ids.Nodup →
    k ≤ ids.length →
    (takeSample ids k).length = k ∧ (takeSample ids k).Nodup ∧
    ∀ x ∈ takeSample ids k, x ∈ ids := by
  intro ids k hnd hk
  refine ⟨?_, ?_, ?_⟩
  · rw [takeSample, List.length_take]
    omega
  · exact hnd.sublist (List.take_sublist k ids)
  · intro x hx
    exact List.take_subset k ids hx

theorem sample_to_fraction_spec_witness :
    ∃ inv2 : Inventory,
      randomly_remove_samples_to_percent takeSample (some wrInv) (1/2) =
        .ok (some inv2) ∧
      inv2.length = (⌊(wrInv.length : ℚ) * (1/2)⌋).toNat ∧
      (inv2.map Prod.fst).Nodup ∧
      (∀ kv ∈ inv2, kv.1 ∈ wrInv.map Prod.fst) ∧
      (∀ kv ∈ inv2, getVal wrInv kv.1 = some kv.2) :=
  sample_to_fraction_spec takeSample takeSample_valid wrInv (1/2)
    one_half_pos.le one_half_lt_one.le (by decide)

/-! Sortedness and stability of the descending sort used by `log_stats`. -/

theorem mem_insertDescBy {α : Type} (key : α → Nat) (x : α) (l : List α)
    (y : α) : y ∈ insertDescBy key x l ↔ y = x ∨ y ∈ l := by
  induction l with
  | nil => simp [insertDescBy]
  | cons z zs ih =>
    by_cases h : key z ≤ key x
    · simp [insertDescBy, h]
    · simp only [insertDescBy, if_neg h, List.mem_cons, ih]
      tauto

theorem pairwise_insertDescBy {α : Type} (key : α → Nat) (x : α)
    {l : List α} (hl : l.Pairwise (fun a b => key b ≤ key a)) :
    (insertDescBy key x l).Pairwise (fun a b => key b ≤ key a) := by
  induction l with
  | nil => simp [insertDescBy]
  | cons z zs ih =>
    rw [List.pairwise_cons] at hl
    by_cases h : key z ≤ key x
    · rw [insertDescBy, if_pos h, List.pairwise_cons]
      refine ⟨?_, List.pairwise_cons.mpr hl⟩
      intro a ha
      rcases List.mem_cons.mp ha with he | hm
      · rw [he]
        exact h
      · exact le_trans (hl.1 a hm) h
    · rw [insertDescBy, if_neg h, List.pairwise_cons]
      refine ⟨?_, ih hl.2⟩
      intro a ha
      rcases (mem_insertDescBy key x zs a).mp ha with he | hm
      · rw [he]
        exact le_of_lt (lt_of_not_le h)
      · exact hl.1 a hm

theorem pairwise_sortDescBy {α : Type} (key : α → Nat) (l : List α) :
    (sortDescBy key l).Pairwise (fun a b => key b ≤ key a) := by
  induction l with
  | nil => exact List.Pairwise.nil
  | cons x xs ih => exact pairwise_insertDescBy key x ih

theorem filter_insertDescBy_of_eq {α : Type} (key : α → Nat) (x : α)
    (l : List α) {c : Nat} (hx : key x = c) :
    (insertDescBy key x l).filter (fun y => key y == c) =
      x :: l.filter (fun y => key y == c) := by
  induction l with
  | nil => simp [insertDescBy, hx]
  | cons z zs ih =>
    by_cases h : key z ≤ key x
    · rw [insertDescBy, if_pos h]
      simp [hx]
    · have hz : ¬ (key z = c) := by
        omega
      rw [insertDescBy, if_neg h]
      simp only [List.filter_cons]
      rw [if_neg (by simpa using hz), ih]
      simp [hz]

theorem filter_insertDescBy_of_ne {α : Type} (key : α → Nat) (x : α)
    (l : List α) {c : Nat} (hx : ¬ key x = c) :
    (insertDescBy key x l).filter (fun y => key y == c) =
      l.filter (fun y => key y == c) := by
  induction l with
  | nil => simp [insertDescBy, hx]
  | cons z zs ih =>
    by_cases h : key z ≤ key x
    · rw [insertDescBy, if_pos h]
      simp [hx]
    · rw [insertDescBy, if_neg h]
      simp only [List.filter_cons]
      by_cases hz : key z = c <;> simp [hz, ih]

theorem filter_sortDescBy {α : Type} (key : α → Nat) (l : List α) (c : Nat) :
    (sortDescBy key l).filter (fun y => key y == c) =
      l.filter (fun y => key y == c) := by
  induction l with
  | nil => rfl
  | cons x xs ih =>
    rw [sortDescBy]
    by_cases hx : key x = c
    · rw [filter_insertDescBy_of_eq key x _ hx, ih]
      simp [hx]
    · rw [filter_insertDescBy_of_ne key x _ hx, ih]
      simp only [List.filter_cons]
      rw [if_neg (by simpa using hx)]

/-- The inventory whose label counts for type `"t"` are `a:5, b:9, c:9`,
first encountered in the order `a, b, c`. -/
def tieInv : Inventory :=
  [("r1", ⟨[("t", ["a", "b", "c"])], []⟩),
   ("r2", ⟨[("t", ["a", "a", "a", "a",
                   "b", "b", "b", "b", "b", "b", "b", "b",
                   "c", "c", "c", "c", "c", "c", "c", "c"])], []⟩)]

/-- C6: for every inventory and label type, the `(label, count)` lines of
`log_stats` come out sorted by descending count, and within each count value
in exactly the order the labels were first encountered (the insertion order
of `label_stats[label_type]`); in particular counts `a:5, b:9, c:9`
encountered in the order `a, b, c` are logged as `b, c, a`. -/
theorem logged_stats_order_spec :
    (∀ (inv : Inventory) (label_type : String),
      (loggedStatsOrder inv label_type).Pairwise (fun x y => y.2 ≤ x.2) ∧
      ∀ c : Nat, (loggedStatsOrder inv label_type).filter (fun x => x.2 == c) =
        ((getVal (computeStats inv).label_stats label_type).getD []).filter
          (fun x => x.2 == c)) ∧
    loggedStatsOrder tieInv "t" = [("b", 9), ("c", 9), ("a", 5)] := by
  refine ⟨?_, by decide⟩
  intro inv label_type
  exact ⟨pairwise_sortDescBy Prod.snd _, fun c => filter_sortDescBy Prod.snd _ c⟩

/-! Quantities counted by `log_stats`. -/

/-- One `(label_type, label_list)` iteration of the statistics loop. -/
def statStep (s : Stats) (p : String × List String) : Stats :=
  processLabelType s p.1 p.2

/-- All `(label_type, label_list)` pairs the statistics loop visits, in
visiting order. -/
def eventsOf (inv : Inventory) : List (String × List String) :=
  (inv.map (fun kv => kv.2.labels)).flatten

/-- The stream of label values of type `lt` in an event list, in counting
order. -/
def occsE (es : List (String × List String)) (lt : String) : List String :=
  ((es.filter (fun p => p.1 == lt)).map Prod.snd).flatten

/-- Every occurrence of a label value of type `lt` in the inventory:
one list entry per record–label pair counted by `log_stats`. -/
def typeLabelOccurrences (inv : Inventory) (lt : String) : List String :=
  occsE (eventsOf inv) lt

/-- Number of `(label_type, label_list)` pairs of type `lt` holding more
than one label. -/
def multisE (es : List (String × List String)) (lt : String) : Nat :=
  (es.filter (fun p => p.1 == lt && decide (1 < p.2.length))).length

/-- Sum of the per-label counts of one label type. -/
def sumCounts (d : List (String × Nat)) : Nat := (d.map Prod.snd).sum

/-- The per-label counts `label_stats[lt]` computed by `log_stats`. -/
def labelCountsFor (inv : Inventory) (lt : String) : List (String × Nat) :=
  (getVal (computeStats inv).label_stats lt).getD []

/-- The multi-label record count `label_type_stats[lt]` computed by
`log_stats`. -/
def multiLabelCount (inv : Inventory) (lt : String) : Nat :=
  (getVal (computeStats inv).label_type_stats lt).getD 0

/-- Number of records whose labels dict carries label type `lt`. -/
def recordsCarryingType (inv : Inventory) (lt : String) : Nat :=
  (inv.filter (fun kv => kv.2.labels.any (fun p => p.1 == lt))).length

theorem computeStats_eq_foldl (inv : Inventory) :
    computeStats inv = (eventsOf inv).foldl statStep ⟨[], []⟩ := by
  suffices h : ∀ (l : Inventory) (s : Stats),
      l.foldl (fun s kv =>
        kv.2.labels.foldl (fun s p => processLabelType s p.1 p.2) s) s =
      (eventsOf l).foldl statStep s from h inv ⟨[], []⟩
  intro l
  induction l with
  | nil =>
    intro s
    rfl
  | cons kv rest ih =>
    intro s
    have hev : eventsOf (kv :: rest) = kv.2.labels ++ eventsOf rest := by
      simp [eventsOf]
    rw [List.foldl_cons, ih, hev, List.foldl_append]
    rfl

/-- A binding appended with the default value does not change the
defaulted lookup. -/
theorem getD_getVal_append_self {α : Type} (d : List (String × α))
    (k : String) (v0 : α) :
    (getVal (d ++ [(k, v0)]) k).getD v0 = (getVal d k).getD v0 := by
  rw [getVal_append]
  cases h : getVal d k <;> simp [getVal]

theorem label_stats_statStep (s : Stats) (p : String × List String)
    (lt : String) :
    (getVal (statStep s p).label_stats lt).getD [] =
      if p.1 = lt then addLabels ((getVal s.label_stats lt).getD []) p.2
      else (getVal s.label_stats lt).getD [] := by
  obtain ⟨a, ll⟩ := p
  by_cases h3 : a = lt
  · subst h3
    rw [if_pos rfl]
    by_cases h1 : (getVal s.label_stats a).isSome
    · by_cases h2 : 1 < ll.length <;>
        simp [statStep, processLabelType, h1, h2, getVal_setItem_self]
    · have habs : getVal s.label_stats a = none :=
        Option.not_isSome_iff_eq_none.mp h1
      by_cases h2 : 1 < ll.length <;>
        simp [statStep, processLabelType, h1, h2, getVal_setItem_self,
          getVal_append_self _ habs, habs]
  · rw [if_neg h3]
    by_cases h1 : (getVal s.label_stats a).isSome
    · by_cases h2 : 1 < ll.length <;>
        simp [statStep, processLabelType, h1, h2, getVal_setItem_ne _ h3]
    · by_cases h2 : 1 < ll.length <;>
        simp [statStep, processLabelType, h1, h2, getVal_setItem_ne _ h3,
          getVal_append_ne _ h3]

theorem label_type_stats_statStep (s : Stats) (p : String × List String)
    (lt : String) :
    (getVal (statStep s p).label_type_stats lt).getD 0 =
      if p.1 = lt ∧ 1 < p.2.length then
        (getVal s.label_type_stats lt).getD 0 + 1
      else (getVal s.label_type_stats lt).getD 0 := by
  obtain ⟨a, ll⟩ := p
  by_cases h3 : a = lt
  · subst h3
    by_cases h2 : 1 < ll.length
    · rw [if_pos ⟨rfl, h2⟩]
      by_cases h1 : (getVal s.label_stats a).isSome
      · simp [statStep, processLabelType, h1, h2, getVal_setItem_self]
      · simp [statStep, processLabelType, h1, h2, getVal_setItem_self,
          getD_getVal_append_self]
    · rw [if_neg (by tauto)]
      by_cases h1 : (getVal s.label_stats a).isSome
      · simp [statStep, processLabelType, h1, h2]
      · simp [statStep, processLabelType, h1, h2, getD_getVal_append_self]
  · rw [if_neg (by tauto)]
    by_cases h1 : (getVal s.label_stats a).isSome
    · by_cases h2 : 1 < ll.length <;>
        simp [statStep, processLabelType, h1, h2, getVal_setItem_ne _ h3]
    · by_cases h2 : 1 < ll.length <;>
        simp [statStep, processLabelType, h1, h2, getVal_setItem_ne _ h3,
          getVal_append_ne _ h3]

theorem addLabels_append (d : List (String × Nat)) (l1 l2 : List String) :
    addLabels d (l1 ++ l2) = addLabels (addLabels d l1) l2 :=
  List.foldl_append bump d l1 l2

theorem foldl_label_stats (es : List (String × List String)) (lt : String) :
    ∀ s : Stats,
      (getVal ((es.foldl statStep s).label_stats) lt).getD [] =
        addLabels ((getVal s.label_stats lt).getD []) (occsE es lt) := by
  induction es with
  | nil =>
    intro s
    rfl
  | cons p rest ih =>
    intro s
    rw [List.foldl_cons, ih]
    by_cases h : p.1 = lt
    · have hocc : occsE (p :: rest) lt = p.2 ++ occsE rest lt := by
        simp [occsE, h]
      rw [label_stats_statStep, if_pos h, hocc, addLabels_append]
    · have hocc : occsE (p :: rest) lt = occsE rest lt := by
        simp [occsE, h]
      rw [label_stats_statStep, if_neg h, hocc]

theorem foldl_label_type_stats (es : List (String × List String))
    (lt : String) :
    ∀ s : Stats,
      (getVal ((es.foldl statStep s).label_type_stats) lt).getD 0 =
        (getVal s.label_type_stats lt).getD 0 + multisE es lt := by
  induction es with
  | nil =>
    intro s
    rfl
  | cons p rest ih =>
    intro s
    rw [List.foldl_cons, ih, label_type_stats_statStep]
    by_cases h : p.1 = lt ∧ 1 < p.2.length
    · have hm : multisE (p :: rest) lt = multisE rest lt + 1 := by
        simp [multisE, List.filter_cons, h.1, h.2]
      rw [if_pos h, hm]
      omega
    · have hm : multisE (p :: rest) lt = multisE rest lt := by
        rcases not_and_or.mp h with h1 | h2
        · simp [multisE, List.filter_cons, h1]
        · simp [multisE, List.filter_cons, h2]
      rw [if_neg h, hm]

theorem labelCountsFor_eq (inv : Inventory) (lt : String) :
    labelCountsFor inv lt = addLabels [] (typeLabelOccurrences inv lt) := by
  rw [labelCountsFor, computeStats_eq_foldl, typeLabelOccurrences]
  exact foldl_label_stats (eventsOf inv) lt ⟨[], []⟩

theorem multiLabelCount_eq (inv : Inventory) (lt : String) :
    multiLabelCount inv lt = multisE (eventsOf inv) lt := by
  rw [multiLabelCount, computeStats_eq_foldl]
  rw [foldl_label_type_stats (eventsOf inv) lt ⟨[], []⟩]
  simp [getVal]

theorem sumCounts_bump (d : List (String × Nat)) (x : String) :
    sumCounts (bump d x) = sumCounts d + 1 := by
  induction d with
  | nil => rfl
  | cons kv rest ih =>
    by_cases h : kv.1 = x
    · simp [bump, h, sumCounts]
      omega
    · simp [bump, h, sumCounts] at ih ⊢
      omega

theorem sumCounts_addLabels (l : List String) :
    ∀ d, sumCounts (addLabels d l) = sumCounts d + l.length := by
  induction l with
  | nil =>
    intro d
    rfl
  | cons x xs ih =>
    intro d
    rw [addLabels, List.foldl_cons]
    rw [show xs.foldl bump (bump d x) = addLabels (bump d x) xs from rfl]
    rw [ih, sumCounts_bump, List.length_cons]
    omega

theorem multisE_eventsOf (inv : Inventory) (lt : String) :
    multisE (eventsOf inv) lt =
      (inv.map (fun kv => (kv.2.labels.filter
        (fun p => p.1 == lt && decide (1 < p.2.length))).length)).sum := by
  rw [multisE, eventsOf, List.filter_flatten, List.length_flatten,
    List.map_map, List.map_map]
  rfl

theorem filter_key_length_le_one (labels : List (String × List String))
    (lt : String) (hnd : (labels.map Prod.fst).Nodup) :
    (labels.filter (fun p => p.1 == lt)).length ≤ 1 := by
  induction labels with
  | nil => exact Nat.zero_le 1
  | cons kv rest ih =>
    simp only [List.map_cons, List.nodup_cons] at hnd
    by_cases h : kv.1 = lt
    · rw [List.filter_cons_of_pos (by simp [h])]
      have hnil : rest.filter (fun p => p.1 == lt) = [] := by
        rw [List.filter_eq_nil_iff]
        intro p hp hcon
        apply hnd.1
        rw [h, ← (by simpa using hcon : p.1 = lt)]
        exact List.mem_map_of_mem Prod.fst hp
      simp [hnil]
    · rw [List.filter_cons_of_neg (by simp [h])]
      exact ih hnd.2

theorem record_multi_le_indicator (labels : List (String × List String))
    (lt : String) (hnd : (labels.map Prod.fst).Nodup) :
    (labels.filter (fun p => p.1 == lt && decide (1 < p.2.length))).length ≤
      (if labels.any (fun p => p.1 == lt) then 1 else 0) := by
  by_cases hany : labels.any (fun p => p.1 == lt)
  · rw [if_pos hany]
    have hsplit : labels.filter (fun p => p.1 == lt && decide (1 < p.2.length)) =
        (labels.filter (fun p => p.1 == lt)).filter
          (fun p => decide (1 < p.2.length)) := by
      rw [List.filter_filter]
      exact List.filter_congr (fun p _ => Bool.and_comm _ _)
    rw [hsplit]
    exact le_trans (List.length_filter_le _ _)
      (filter_key_length_le_one labels lt hnd)
  · rw [if_neg hany]
    have hnil : labels.filter (fun p => p.1 == lt && decide (1 < p.2.length)) = [] := by
      rw [List.filter_eq_nil_iff]
      intro p hp hcon
      apply hany
      rw [List.any_eq_true]
      exact ⟨p, hp, (Bool.and_elim_left hcon)⟩
    simp [hnil]

theorem sum_indicator_eq_length_filter {α : Type} (l : List α) (P : α → Bool) :
    (l.map (fun x => if P x then 1 else 0)).sum = (l.filter P).length := by
  induction l with
  | nil => rfl
  | cons x xs ih =>
    by_cases h : P x <;> simp [List.filter_cons, h, ih] <;> omega

/-- Amended C4: for every label type, the per-label-value counts of
`log_stats` sum to the total number of label-value occurrences of that type
(one per appearance of a label in a record's list, so a record with several
labels of the type contributes several), and the multi-label count never
exceeds the number of records carrying that type (given the per-record
labels dicts are duplicate-free, as Python dicts are). -/
theorem label_counts_sum_and_multi_bound (inv : Inventory) (lt : String)
    (hwf : ∀ kv ∈ inv, ((kv.2.labels.map Prod.fst).Nodup)) :
    sumCounts (labelCountsFor inv lt) = (typeLabelOccurrences inv lt).length ∧
    multiLabelCount inv lt ≤ recordsCarryingType inv lt := by
  constructor
  · rw [labelCountsFor_eq, sumCounts_addLabels]
    simp [sumCounts]
  · rw [multiLabelCount_eq, multisE_eventsOf, recordsCarryingType,
      ← sum_indicator_eq_length_filter]
    exact List.sum_le_sum (fun kv hkv =>
      record_multi_le_indicator kv.2.labels lt (hwf kv hkv))

/-- The one-record inventory with two labels of one type used to refute C4
as stated and to witness the amended statement. -/
def multiLabelInv : Inventory :=
  [("r1", ⟨[("species", ["cat", "dog"])], []⟩)]

/-- C4 counterexample: one record carrying two `species` labels makes the
per-label counts sum to 2 while only 1 record carries the type, so the
counts do not sum to the number of records carrying the label type. -/
theorem label_counts_sum_cex :
    ¬ (sumCounts (labelCountsFor multiLabelInv "species") =
         recordsCarryingType multiLabelInv "species" ∧
       multiLabelCount multiLabelInv "species" ≤
         recordsCarryingType multiLabelInv "species") ∧
    sumCounts (labelCountsFor multiLabelInv "species") = 2 ∧
    recordsCarryingType multiLabelInv "species" = 1 := by
  decide

theorem label_counts_sum_and_multi_bound_witness :
    sumCounts (labelCountsFor multiLabelInv "species") =
      (typeLabelOccurrences multiLabelInv "species").length ∧
    multiLabelCount multiLabelInv "species" ≤
      recordsCarryingType multiLabelInv "species" :=
  label_counts_sum_and_multi_bound multiLabelInv "species" (by decide)

end CameraTrap
